import Mathlib

/- Verification of the kine Oracle driver (`pkg/drivers/oracle/oracle.go`).

   The file shallowly embeds the driver's pure and stateful parts:
   the placeholder translator `q`, the SQL query templates built from
   `listSQL` (current-state list, revision-bounded list, after-cursor
   poll) as executable functions over an explicit table of rows, the
   schema installer `setup` as explicit state passing over an abstract
   statement executor, and the error classifier `TranslateErr`. -/

namespace KineOracle

/-! ### Placeholder translator `q`

    Go source:
    ```
    func q(sql string) string {
        regex := regexp.MustCompile(`\?`)
        pref := ":"
        n := 0
        return regex.ReplaceAllStringFunc(sql, func(string) string {
            n++
            return pref + strconv.Itoa(n)
        })
    }
    ```
    Each occurrence of `?`, scanned left to right, is replaced by `:`
    followed by the decimal rendering of the running counter. -/

def qAux : List Char → Nat → List Char
  | [], _ => []
  | c :: cs, n =>
    if c = '?' then ':' :: (Nat.repr (n + 1)).data ++ qAux cs (n + 1)
    else c :: qAux cs n

def q (s : String) : String := ⟨qAux s.data 0⟩

/-- The maximal `?`-free segments of a template, in order. -/
def splitOnQ : List Char → List (List Char)
  | [] => [[]]
  | c :: cs =>
    if c = '?' then [] :: splitOnQ cs
    else
      match splitOnQ cs with
      | [] => [[c]]
      | s :: ss => (c :: s) :: ss

/-- Interleave segments with numbered markers `:n`, `:n+1`, ... -/
def joinNumbered : List (List Char) → Nat → List Char
  | [], _ => []
  | [s], _ => s
  | s :: ss, n => s ++ ':' :: (Nat.repr n).data ++ joinNumbered ss (n + 1)

theorem splitOnQ_ne_nil (cs : List Char) : splitOnQ cs ≠ [] := by
  cases cs with
  | nil => simp [splitOnQ]
  | cons c cs =>
    simp only [splitOnQ]
    split
    · simp
    · split
      · simp
      · simp

theorem qAux_eq_joinNumbered (cs : List Char) (n : Nat) :
    qAux cs n = joinNumbered (splitOnQ cs) (n + 1) := by
  induction cs generalizing n with
  | nil => simp [qAux, splitOnQ, joinNumbered]
  | cons c cs ih =>
    by_cases hc : c = '?'
    · subst hc
      rw [show qAux ('?' :: cs) n = ':' :: (Nat.repr (n + 1)).data ++ qAux cs (n + 1) from rfl,
        show splitOnQ ('?' :: cs) = [] :: splitOnQ cs from rfl]
      rcases hs : splitOnQ cs with _ | ⟨s, ss⟩
      · exact absurd hs (splitOnQ_ne_nil cs)
      · rw [ih, hs]
        simp [joinNumbered]
    · simp only [qAux, if_neg hc, splitOnQ]
      rcases hs : splitOnQ cs with _ | ⟨s, ss⟩
      · exact absurd hs (splitOnQ_ne_nil cs)
      · cases ss with
        | nil => rw [ih, hs]; simp [joinNumbered]
        | cons t ts => rw [ih, hs]; simp [joinNumbered]

theorem splitOnQ_no_q (cs : List Char) : ∀ s ∈ splitOnQ cs, '?' ∉ s := by
  induction cs with
  | nil => intro s hs; simp [splitOnQ] at hs; simp [hs]
  | cons c cs ih =>
    intro s hs
    by_cases hc : c = '?'
    · subst hc
      rw [show splitOnQ ('?' :: cs) = [] :: splitOnQ cs from rfl] at hs
      rcases List.mem_cons.mp hs with h | h
      · simp [h]
      · exact ih s h
    · simp only [splitOnQ, if_neg hc] at hs
      rcases hsp : splitOnQ cs with _ | ⟨t, ts⟩
      · exact absurd hsp (splitOnQ_ne_nil cs)
      · rw [hsp] at hs
        simp only [List.mem_cons] at hs
        rcases hs with h | h
        · subst h
          intro hmem
          rcases List.mem_cons.mp hmem with h1 | h2
          · exact hc h1.symm
          · exact ih t (by rw [hsp]; exact List.mem_cons_self t ts) h2
        · exact ih s (by rw [hsp]; exact List.mem_cons_of_mem t h)

theorem splitOnQ_length (cs : List Char) :
    (splitOnQ cs).length = cs.count '?' + 1 := by
  induction cs with
  | nil => simp [splitOnQ]
  | cons c cs ih =>
    by_cases hc : c = '?'
    · subst hc
      rw [show splitOnQ ('?' :: cs) = [] :: splitOnQ cs from rfl]
      simp [List.count_cons, ih]
    · simp only [splitOnQ, if_neg hc]
      rcases hsp : splitOnQ cs with _ | ⟨t, ts⟩
      · exact absurd hsp (splitOnQ_ne_nil cs)
      · have : (t :: ts).length = cs.count '?' + 1 := by rw [← hsp]; exact ih
        simp only [List.length_cons] at this ⊢
        rw [List.count_cons]
        simp [hc, this]

/-- C2: the translator rewrites the Nth `?` (left to right) into `:N`,
    numbering from 1: the output is exactly the `?`-free segments of the
    input interleaved with the markers `:1, :2, ...` in order, the number
    of markers equals the number of `?` occurrences, and the segments
    (all other characters) are unchanged. -/
theorem c2_placeholder_translator (s : String) :
    (q s).data = joinNumbered (splitOnQ s.data) 1
    ∧ (splitOnQ s.data).length = s.data.count '?' + 1
    ∧ ∀ seg ∈ splitOnQ s.data, '?' ∉ seg := by
  refine ⟨?_, splitOnQ_length s.data, splitOnQ_no_q s.data⟩
  show qAux s.data 0 = _
  rw [qAux_eq_joinNumbered]

theorem digitChar_ne_q (n : Nat) : Nat.digitChar n ≠ '?' := by
  rcases n with _|_|_|_|_|_|_|_|_|_|_|_|_|_|_|_|m
  · decide
  · decide
  · decide
  · decide
  · decide
  · decide
  · decide
  · decide
  · decide
  · decide
  · decide
  · decide
  · decide
  · decide
  · decide
  · decide
  · unfold Nat.digitChar
    repeat rw [if_neg (by omega)]
    decide

theorem toDigitsCore_ne_q (fuel : Nat) : ∀ (n : Nat) (ds : List Char),
    (∀ c ∈ ds, c ≠ '?') → ∀ c ∈ Nat.toDigitsCore 10 fuel n ds, c ≠ '?' := by
  induction fuel with
  | zero => intro n ds h c hc; exact h c hc
  | succ f ih =>
    intro n ds h c hc
    unfold Nat.toDigitsCore at hc
    have hcons : ∀ c' ∈ Nat.digitChar (n % 10) :: ds, c' ≠ '?' := by
      intro c' hc'
      rcases List.mem_cons.mp hc' with h1 | h2
      · subst h1; exact digitChar_ne_q (n % 10)
      · exact h c' h2
    by_cases hz : n / 10 = 0
    · rw [if_pos hz] at hc
      exact hcons c hc
    · rw [if_neg hz] at hc
      exact ih (n / 10) (Nat.digitChar (n % 10) :: ds) hcons c hc

theorem repr_ne_q (n : Nat) : '?' ∉ (Nat.repr n).data := by
  intro hmem
  exact toDigitsCore_ne_q (n + 1) n [] (by intro c hc; cases hc) '?' hmem rfl

theorem qAux_no_q (cs : List Char) (n : Nat) : '?' ∉ qAux cs n := by
  induction cs generalizing n with
  | nil => simp [qAux]
  | cons c cs ih =>
    by_cases hc : c = '?'
    · subst hc
      rw [show qAux ('?' :: cs) n = ':' :: (Nat.repr (n + 1)).data ++ qAux cs (n + 1) from rfl]
      intro hmem
      rcases List.mem_cons.mp hmem with h1 | h2
      · cases h1
      · rcases List.mem_append.mp h2 with h3 | h4
        · exact repr_ne_q (n + 1) h3
        · exact ih (n + 1) h4
    · simp only [qAux, if_neg hc]
      intro hmem
      rcases List.mem_cons.mp hmem with h1 | h2
      · exact hc h1.symm
      · exact ih n h2

theorem qAux_of_no_q (cs : List Char) (n : Nat) (h : '?' ∉ cs) : qAux cs n = cs := by
  induction cs generalizing n with
  | nil => rfl
  | cons c cs ih =>
    have hc : c ≠ '?' := by
      intro he; exact h (he ▸ List.mem_cons_self c cs)
    simp only [qAux, if_neg hc]
    rw [ih n (fun hm => h (List.mem_cons_of_mem c hm))]

/-- C10: the translator is idempotent: its output contains no generic
    marker `?` any more, hence a second application leaves an
    already-translated template unchanged. -/
theorem c10_translator_idempotent (s : String) :
    '?' ∉ (q s).data ∧ q (q s) = q s := by
  refine ⟨qAux_no_q s.data 0, ?_⟩
  show String.mk (qAux (q s).data 0) = q s
  rw [qAux_of_no_q (q s).data 0 (qAux_no_q s.data 0)]

/-! ### Data model: one row of the `kine` table

    ```
    CREATE TABLE kine
      ( id INTEGER GENERATED BY DEFAULT AS IDENTITY,
        name VARCHAR2(630), created INTEGER, deleted INTEGER,
        create_revision INTEGER, prev_revision INTEGER, lease INTEGER,
        value BLOB, old_value BLOB, CONSTRAINT kine_pk PRIMARY KEY (id) )
    ``` -/

structure Row where
  id : Nat
  name : String
  created : Nat
  deleted : Nat
  create_revision : Nat
  prev_revision : Nat
  lease : Nat
  value : String
  old_value : String
deriving DecidableEq

/-- SQL `LIKE` pattern matching over characters: `%` matches any
    sequence, `_` any single character, all else literally. Structural
    recursion on an explicit fuel; every recursive step shrinks
    `p.length + s.length` by at least one, so `likeMatch`'s fuel of
    `p.length + s.length + 1` is always sufficient. -/
def likeCharsF : Nat → List Char → List Char → Bool
  | 0, _, _ => false
  | fuel + 1, p, s =>
    match p, s with
    | [], s => s.isEmpty
    | '%' :: ps, [] => likeCharsF fuel ps []
    | '%' :: ps, c :: cs => likeCharsF fuel ps (c :: cs) || likeCharsF fuel ('%' :: ps) cs
    | '_' :: _, [] => false
    | '_' :: ps, _ :: cs => likeCharsF fuel ps cs
    | _ :: _, [] => false
    | q :: ps, c :: cs => (q == c) && likeCharsF fuel ps cs

/-- Semantics of `name LIKE ?`. -/
def likeMatch (pattern s : String) : Bool :=
  likeCharsF (pattern.data.length + s.data.length + 1) pattern.data s.data

/-- SQL lexicographic string comparison (used by `name > ...` and
    `ORDER BY ... ASC`). -/
def charsLt : List Char → List Char → Bool
  | [], [] => false
  | [], _ :: _ => true
  | _ :: _, [] => false
  | a :: as, b :: bs => decide (a < b) || (a == b && charsLt as bs)

def sqlLt (a b : String) : Bool := charsLt a.data b.data

theorem charsLt_irrefl (as : List Char) : charsLt as as = false := by
  induction as with
  | nil => rfl
  | cons a as ih => simp [charsLt, ih]

theorem charsLt_trans {as bs cs : List Char} (h1 : charsLt as bs = true)
    (h2 : charsLt bs cs = true) : charsLt as cs = true := by
  induction as generalizing bs cs with
  | nil =>
    cases bs with
    | nil => simp [charsLt] at h1
    | cons b bs =>
      cases cs with
      | nil => simp [charsLt] at h2
      | cons c cs => rfl
  | cons a as ih =>
    cases bs with
    | nil => simp [charsLt] at h1
    | cons b bs =>
      cases cs with
      | nil => simp [charsLt] at h2
      | cons c cs =>
        simp only [charsLt, Bool.or_eq_true, Bool.and_eq_true, decide_eq_true_eq,
          beq_iff_eq] at h1 h2 ⊢
        rcases h1 with hab | ⟨hab, htl1⟩ <;> rcases h2 with hbc | ⟨hbc, htl2⟩
        · exact Or.inl (lt_trans hab hbc)
        · exact Or.inl (hbc ▸ hab)
        · exact Or.inl (hab ▸ hbc)
        · exact Or.inr ⟨hab.trans hbc, ih htl1 htl2⟩

theorem charsLt_eq_of_not (as bs : List Char) (h1 : charsLt as bs = false)
    (h2 : charsLt bs as = false) : as = bs := by
  induction as generalizing bs with
  | nil =>
    cases bs with
    | nil => rfl
    | cons b bs => simp [charsLt] at h1
  | cons a as ih =>
    cases bs with
    | nil => simp [charsLt] at h2
    | cons b bs =>
      simp only [charsLt, Bool.or_eq_false_iff, Bool.and_eq_false_iff,
        decide_eq_false_iff_not, beq_eq_false_iff_ne, ne_eq] at h1 h2
      have hab : a = b := by
        rcases h1 with ⟨hnl1, _⟩
        rcases h2 with ⟨hnl2, _⟩
        exact le_antisymm (not_lt.mp hnl2) (not_lt.mp hnl1)
      subst hab
      rcases h1.2 with he1 | ht1
      · exact absurd rfl he1
      · rcases h2.2 with he2 | ht2
        · exact absurd rfl he2
        · rw [ih bs ht1 ht2]

theorem charsLt_asymm {as bs : List Char} (h : charsLt as bs = true) :
    charsLt bs as = false := by
  by_contra hne
  have h2 : charsLt bs as = true := by
    cases hv : charsLt bs as
    · exact absurd hv hne
    · rfl
  have := charsLt_trans h h2
  rw [charsLt_irrefl] at this
  cases this

/-- Ordering relation of `ORDER BY lkv.thename ASC`. -/
def nameLe (a b : Row) : Prop := sqlLt b.name a.name = false

/-- Ordering relation of `ORDER BY kv.id ASC`. -/
def idLe (a b : Row) : Prop := a.id ≤ b.id

instance : DecidableRel nameLe := fun a b => by
  unfold nameLe; infer_instance

instance : DecidableRel idLe := fun a b => by
  unfold idLe; infer_instance

instance : IsTotal Row nameLe where
  total a b := by
    unfold nameLe
    cases hv : sqlLt b.name a.name
    · exact Or.inl rfl
    · exact Or.inr (charsLt_asymm hv)

instance : IsTrans Row nameLe where
  trans a b c hab hbc := by
    unfold nameLe at hab hbc ⊢
    cases hv : sqlLt c.name a.name
    · rfl
    · exfalso
      unfold sqlLt at hab hbc hv
      cases hw : charsLt a.name.data b.name.data
      · have heq := charsLt_eq_of_not _ _ hw hab
        rw [heq] at hv
        rw [hv] at hbc
        cases hbc
      · have := charsLt_trans hv hw
        rw [this] at hbc
        cases hbc

instance : IsTotal Row idLe where
  total a b := Nat.le_total a.id b.id

instance : IsTrans Row idLe where
  trans _ _ _ hab hbc := Nat.le_trans hab hbc

/-! ### Query templates

    `listSQL` (with `revSQL` and `compactRevSQL` spliced in as scalar
    subqueries) is:
    ```
    SELECT * FROM (
      SELECT (SELECT MAX(rkv.id) FROM kine rkv),
             (SELECT MAX(crkv.prev_revision) FROM kine crkv
              WHERE crkv.name = 'compact_rev_key'),
             kv.id AS theid, kv.name AS thename, kv.created, kv.deleted,
             kv.create_revision, kv.prev_revision, kv.lease, kv.value, kv.old_value
      FROM kine kv
      JOIN (SELECT MAX(mkv.id) AS id FROM kine mkv
            WHERE mkv.name LIKE ? %s GROUP BY mkv.name) maxkv
        ON maxkv.id = kv.id
      WHERE kv.deleted = 0 OR kv.deleted = ?
    ) lkv ORDER BY lkv.thename ASC
    ```
    with `%s` instantiated per template:
      GetCurrentSQL:        AND mkv.name > NVL(?, CHR(1))
      ListRevisionStartSQL: AND mkv.id <= ?
    `AfterSQL` is a plain scan:
    ```
    SELECT ..columns.. FROM kine kv
    WHERE kv.name LIKE ? AND kv.id > ? ORDER BY kv.id ASC
    ``` -/

/-- `SELECT MAX(rkv.id) FROM kine rkv`. -/
def revQuery (t : List Row) : Option Nat := (t.map Row.id).max?

/-- `SELECT MAX(crkv.prev_revision) FROM kine crkv WHERE crkv.name = 'compact_rev_key'`. -/
def compactRevQuery (t : List Row) : Option Nat :=
  ((t.filter (fun r => r.name == "compact_rev_key")).map Row.prev_revision).max?

/-- Membership of row `m` in the grouped subquery
    `SELECT MAX(mkv.id) ... WHERE <cond> GROUP BY mkv.name`:
    `m` satisfies the predicate and has the greatest id among rows of its
    name that do. -/
def isMaxForName (t : List Row) (cond : Row → Bool) (m : Row) : Bool :=
  cond m && (t.filter cond).all (fun r => !(r.name == m.name) || decide (r.id ≤ m.id))

def groupMaxIds (t : List Row) (cond : Row → Bool) : List Nat :=
  (t.filter (isMaxForName t cond)).map Row.id

/-- `kv.deleted = 0 OR kv.deleted = ?`. -/
def deletedFilter (d : Nat) (r : Row) : Bool := (r.deleted == 0) || (r.deleted == d)

/-- Result shape of the list templates: the two scalar subquery columns
    prepended to every row, plus the record rows. -/
structure QueryResult where
  rev : Option Nat
  compactRev : Option Nat
  rows : List Row
deriving DecidableEq

/-- The join `FROM kine kv JOIN maxkv ON maxkv.id = kv.id` followed by
    the outer `WHERE kv.deleted = 0 OR kv.deleted = ?`. -/
def joinedRows (t : List Row) (cond : Row → Bool) (d : Nat) : List Row :=
  t.filter (fun kv => (groupMaxIds t cond).contains kv.id && deletedFilter d kv)

/-- Semantics of `listSQL` with inner predicate `cond` (the
    `mkv.name LIKE ?` conjoined with the spliced-in fragment) and the
    deletion-visibility parameter `d`. -/
def listQuery (t : List Row) (cond : Row → Bool) (d : Nat) : QueryResult :=
  { rev := revQuery t
    compactRev := compactRevQuery t
    rows := List.insertionSort nameLe (joinedRows t cond d) }

/-- Inner predicate of `GetCurrentSQL`:
    `mkv.name LIKE ? AND mkv.name > NVL(?, CHR(1))`. -/
def currentCond (pattern : String) (cursor : Option String) (r : Row) : Bool :=
  likeMatch pattern r.name && sqlLt (cursor.getD "\x01") r.name

/-- `GetCurrentSQL`. -/
def getCurrentQuery (t : List Row) (pattern : String) (cursor : Option String)
    (d : Nat) : QueryResult :=
  listQuery t (currentCond pattern cursor) d

/-- Inner predicate of `ListRevisionStartSQL`:
    `mkv.name LIKE ? AND mkv.id <= ?`. -/
def revisionCond (pattern : String) (R : Nat) (r : Row) : Bool :=
  likeMatch pattern r.name && decide (r.id ≤ R)

/-- `ListRevisionStartSQL`. -/
def listRevisionStartQuery (t : List Row) (pattern : String) (R : Nat)
    (d : Nat) : QueryResult :=
  listQuery t (revisionCond pattern R) d

/-- `AfterSQL`: all rows with `kv.name LIKE ? AND kv.id > ?`, ascending id. -/
def afterQuery (t : List Row) (pattern : String) (F : Nat) : QueryResult :=
  { rev := revQuery t
    compactRev := compactRevQuery t
    rows := List.insertionSort idLe
      (t.filter (fun r => likeMatch pattern r.name && decide (F < r.id))) }

/-! ### Schema installer `setup`

    The schema statement list and migration list, and the installer's
    control flow, modelled with an abstract statement executor
    `exec : String → Option E` (`none` = success) and an explicit
    outcome of the `USER_TABLES` existence introspection. -/

def schema : List String :=
  [ "CREATE TABLE kine ( id INTEGER GENERATED BY DEFAULT AS IDENTITY, name VARCHAR2(630), created INTEGER, deleted INTEGER, create_revision INTEGER, prev_revision INTEGER, lease INTEGER, value BLOB, old_value BLOB, CONSTRAINT kine_pk PRIMARY KEY (id) )"
  , "CREATE INDEX kine_name_index ON kine (name)"
  , "CREATE INDEX kine_name_id_index ON kine (name,id)"
  , "CREATE INDEX kine_id_deleted_index ON kine (id,deleted)"
  , "CREATE INDEX kine_prev_revision_index ON kine (prev_revision)"
  , "CREATE UNIQUE INDEX kine_name_prev_revision_uindex ON kine (name, prev_revision)" ]

/-- Both migration entries are empty placeholders kept so that the
    driver's migration numbering lines up with the other kine drivers. -/
def schemaMigrations : List String := ["", ""]

/-- Outcome of `db.QueryRow("SELECT 1 FROM USER_TABLES WHERE table_name = :1", "KINE").Scan(&exists)`. -/
inductive ExistsCheck (E : Type) where
  | ok (b : Bool)
  | errNoRows
  | otherErr (e : E)

/-- `exists` after the introspection: it keeps its zero value `false`
    both on `sql.ErrNoRows` and on any other introspection error (which
    is only logged as a warning). -/
def tableIsPresent {E : Type} : ExistsCheck E → Bool
  | .ok b => b
  | .errNoRows => false
  | .otherErr _ => false

/-- The creation loop: `for _, stmt := range schema { if _, err := db.Exec(stmt); err != nil { return err } }`.
    Returns the statements executed (in order, including a failing one)
    and the first error. -/
def runStmts {E : Type} (exec : String → Option E) : List String → List String × Option E
  | [] => ([], none)
  | s :: rest =>
    match exec s with
    | some e => ([s], some e)
    | none =>
      let p := runStmts exec rest
      (s :: p.1, p.2)

/-- The migration loop:
    `for i, stmt := range schemaMigrations { if i >= int(schemaVersion) { break }; if stmt == "" { continue }; ... db.Exec(stmt) ... }`.
    `ver` is `int(schemaVersion)` (a signed 64-bit value), `i` the index. -/
def runMigrations {E : Type} (exec : String → Option E) (ver : Int) :
    List String → Nat → List String × Option E
  | [], _ => ([], none)
  | s :: rest, i =>
    if (i : Int) ≥ ver then ([], none)
    else if s = "" then runMigrations exec ver rest (i + 1)
    else
      match exec s with
      | some e => ([s], some e)
      | none =>
        let p := runMigrations exec ver rest (i + 1)
        (s :: p.1, p.2)

/-- `strconv.ParseUint(s, 10, 64)` with the error discarded: syntax
    errors yield 0, out-of-range values yield `MaxUint64`. -/
def goParseUint64 (s : String) : Nat :=
  if s.data.isEmpty then 0
  else if s.data.all Char.isDigit then
    let v := s.data.foldl (fun a c => a * 10 + (c.toNat - '0'.toNat)) 0
    if v < 2 ^ 64 then v else 2 ^ 64 - 1
  else 0

/-- The Go conversion `int(schemaVersion)` of a `uint64` to a signed
    64-bit integer. -/
def intOfUint64 (v : Nat) : Int :=
  if v < 2 ^ 63 then (v : Int) else (v : Int) - 2 ^ 64

structure SetupResult (E : Type) where
  schemaExec : List String
  migExec : List String
  err : Option E
deriving DecidableEq

/-- One run of `setup(db)`: existence introspection, conditional schema
    creation, then the version-gated migration replay. -/
def setupRun {E : Type} (check : ExistsCheck E) (exec : String → Option E)
    (env : String) : SetupResult E :=
  let ex := tableIsPresent check
  let screate := if ex then (([] : List String), (none : Option E)) else runStmts exec schema
  match screate.2 with
  | some e => ⟨screate.1, [], some e⟩
  | none =>
    let ver := intOfUint64 (goParseUint64 env)
    let m := runMigrations exec ver schemaMigrations 0
    ⟨screate.1, m.1, m.2⟩

/-- `New`'s handling of the installer:
    `if err := setup(dialect.DB); err != nil { return false, nil, err }`. -/
def newResult {E : Type} (check : ExistsCheck E) (exec : String → Option E)
    (env : String) : Except E Unit :=
  match (setupRun check exec env).err with
  | some e => Except.error e
  | none => Except.ok ()

/-! ### Error classifier `TranslateErr` -/

/-- A Go error value as seen by the classifier: either a
    `*network.OracleError` carrying its `ErrCode`, or any other error. -/
inductive GoError where
  | oracle (errCode : Int) (errMsg : String)
  | other (msg : String)
deriving DecidableEq

/-- Classifier outcome: the domain error `server.ErrKeyExists`, or the
    original error passed through unchanged. -/
inductive KineError where
  | errKeyExists
  | raw (e : GoError)
deriving DecidableEq

/-- `dialect.TranslateErr`:
    `if err, ok := err.(*network.OracleError); ok && err.ErrCode == 1 { return server.ErrKeyExists }; return err`. -/
def TranslateErr (e : GoError) : KineError :=
  match e with
  | .oracle c _ => if c = 1 then .errKeyExists else .raw e
  | .other _ => .raw e

/-! ### Theorems about the installer and the error classifier -/

theorem runStmts_success {E : Type} (exec : String → Option E)
    (h : ∀ s, exec s = none) : ∀ l : List String, runStmts exec l = (l, none) := by
  intro l
  induction l with
  | nil => rfl
  | cons s rest ih => simp [runStmts, h s, ih]

theorem runMigrations_all_empty {E : Type} (exec : String → Option E) (ver : Int) :
    ∀ (ms : List String), (∀ s ∈ ms, s = "") →
    ∀ (i : Nat), runMigrations exec ver ms i = ([], none) := by
  intro ms
  induction ms with
  | nil => intro _ _; rfl
  | cons s rest ih =>
    intro h i
    unfold runMigrations
    by_cases hge : (i : Int) ≥ ver
    · rw [if_pos hge]
    · rw [if_neg hge, if_pos (h s (List.mem_cons_self s rest))]
      exact ih (fun s' hs' => h s' (List.mem_cons_of_mem s hs')) (i + 1)

theorem schemaMigrations_all_empty : ∀ s ∈ schemaMigrations, s = "" := by
  intro s hs
  rcases List.mem_cons.mp hs with h | h
  · exact h
  · rcases List.mem_cons.mp h with h2 | h2
    · exact h2
    · cases h2

/-- C3: a second installer run against a backend on which a first run
    has completed (so the `kine` table now exists) is a no-op beyond the
    existence check: it executes no schema-creation statement, executes
    no migration statement (every migration entry is an empty no-op),
    and returns no error. The first two conjuncts record that a
    successful fresh run executes the whole schema list, which is what
    creates the table. -/
theorem c3_installer_idempotent {E : Type} (exec exec₂ : String → Option E)
    (env env₂ : String) (hexec : ∀ s, exec s = none) :
    (setupRun ExistsCheck.errNoRows exec env).err = none
    ∧ (setupRun ExistsCheck.errNoRows exec env).schemaExec = schema
    ∧ setupRun (ExistsCheck.ok true) exec₂ env₂ = ⟨[], [], none⟩ := by
  have h1 : runStmts exec schema = (schema, none) := runStmts_success exec hexec schema
  have h2 : ∀ ver, runMigrations exec ver schemaMigrations 0 = ([], none) :=
    fun ver => runMigrations_all_empty exec ver schemaMigrations schemaMigrations_all_empty 0
  have h3 : ∀ ver, runMigrations exec₂ ver schemaMigrations 0 = ([], none) :=
    fun ver => runMigrations_all_empty exec₂ ver schemaMigrations schemaMigrations_all_empty 0
  refine ⟨?_, ?_, ?_⟩
  · simp [setupRun, tableIsPresent, h1, h2]
  · simp [setupRun, tableIsPresent, h1, h2]
  · simp [setupRun, tableIsPresent, h3]

theorem c3_installer_idempotent_witness :
    (setupRun ExistsCheck.errNoRows (fun _ => (none : Option String)) "").err = none
    ∧ (setupRun ExistsCheck.errNoRows (fun _ => (none : Option String)) "").schemaExec = schema
    ∧ setupRun (ExistsCheck.ok true) (fun _ => (none : Option String)) "1" = ⟨[], [], none⟩ :=
  c3_installer_idempotent (fun _ => none) (fun _ => none) "" "1" (fun _ => rfl)

theorem runMigrations_take {E : Type} (exec : String → Option E)
    (hexec : ∀ s, exec s = none) (V : Nat) :
    ∀ (ms : List String) (i : Nat),
    runMigrations exec (V : Int) ms i
      = ((ms.take (V - i)).filter (fun s => !(s == "")), none) := by
  intro ms
  induction ms with
  | nil => intro i; simp [runMigrations]
  | cons s rest ih =>
    intro i
    unfold runMigrations
    by_cases hge : i ≥ V
    · rw [if_pos (by exact_mod_cast hge)]
      have : V - i = 0 := Nat.sub_eq_zero_of_le hge
      rw [this]
      simp
    · rw [if_neg (by exact_mod_cast hge)]
      have hlt : i < V := Nat.lt_of_not_le hge
      obtain ⟨m, hm⟩ : ∃ m, V - i = m + 1 :=
        ⟨V - i - 1, by omega⟩
      have hm' : V - (i + 1) = m := by omega
      rw [hm, List.take_succ_cons]
      by_cases hs : s = ""
      · rw [if_pos hs, ih (i + 1), hm']
        subst hs
        simp
      · rw [if_neg hs, hexec s, ih (i + 1), hm']
        simp [hs]

/-- C4: the migration runner executes exactly the nonempty migration
    statements at indices strictly below the configured version `V`, in
    index order; an absent or syntactically unparsable
    `KINE_SCHEMA_MIGRATION` value parses to 0; and against this driver's
    migration list (two empty no-op entries) every installer run
    executes zero migration statements. -/
theorem c4_migration_gating {E : Type} (ms : List String)
    (exec exec₂ : String → Option E) (V : Nat) (env : String)
    (check : ExistsCheck E) (hexec : ∀ s, exec s = none) (hV : V < 2 ^ 63)
    (henv : env.data.isEmpty = true ∨ env.data.all Char.isDigit = false) :
    (runMigrations exec (intOfUint64 V) ms 0).1 = (ms.take V).filter (fun s => !(s == ""))
    ∧ goParseUint64 env = 0
    ∧ (setupRun check exec₂ env).migExec = [] := by
  refine ⟨?_, ?_, ?_⟩
  · have hcast : intOfUint64 V = (V : Int) := by
      unfold intOfUint64; rw [if_pos hV]
    rw [hcast, runMigrations_take exec hexec V ms 0, Nat.sub_zero]
  · unfold goParseUint64
    rcases henv with h | h
    · rw [if_pos h]
    · by_cases hemp : env.data.isEmpty = true
      · rw [if_pos hemp]
      · rw [if_neg hemp, if_neg (by rw [h]; exact Bool.false_ne_true)]
  · have hmig : ∀ ver, runMigrations exec₂ ver schemaMigrations 0 = ([], none) :=
      fun ver => runMigrations_all_empty exec₂ ver schemaMigrations schemaMigrations_all_empty 0
    unfold setupRun
    by_cases hex : tableIsPresent check
    · simp [hex, hmig]
    · simp only [hex, Bool.false_eq_true, if_false]
      rcases hrs : runStmts exec₂ schema with ⟨sl, serr⟩
      cases serr with
      | some e => simp
      | none => simp [hmig]

theorem c4_migration_gating_witness :
    (runMigrations (fun _ => (none : Option String)) (intOfUint64 2) ["a", "", "b", "c"] 0).1
      = ((["a", "", "b", "c"].take 2).filter (fun s => !(s == "")))
    ∧ goParseUint64 "x9" = 0
    ∧ (setupRun (ExistsCheck.errNoRows) (fun _ => (none : Option String)) "x9").migExec = [] :=
  c4_migration_gating ["a", "", "b", "c"] (fun _ => none) (fun _ => none) 2 "x9"
    ExistsCheck.errNoRows (fun _ => rfl) (by decide) (by decide)

/-- C5: the error classifier maps an Oracle backend error whose native
    code is 1 (`ORA-00001`, unique-constraint violation) to the domain
    outcome `server.ErrKeyExists`, and returns every other error value
    unchanged. -/
theorem c5_translate_err :
    (∀ (c : Int) (m : String),
      TranslateErr (GoError.oracle c m)
        = if c = 1 then KineError.errKeyExists else KineError.raw (GoError.oracle c m))
    ∧ ∀ (m : String), TranslateErr (GoError.other m) = KineError.raw (GoError.other m) := by
  exact ⟨fun _ _ => rfl, fun _ => rfl⟩

theorem runStmts_failAt {E : Type} (exec : String → Option E) (e : E) :
    ∀ (l : List String) (k : Nat) (hk : k < l.length),
    (∀ j (hj : j < k), exec (l.get ⟨j, Nat.lt_trans hj hk⟩) = none) →
    exec (l.get ⟨k, hk⟩) = some e →
    runStmts exec l = (l.take (k + 1), some e) := by
  intro l
  induction l with
  | nil => intro k hk; cases hk
  | cons s rest ih =>
    intro k hk hpre hfail
    cases k with
    | zero =>
      have : exec s = some e := hfail
      simp [runStmts, this]
    | succ k' =>
      have hs : exec s = none := hpre 0 (Nat.succ_pos k')
      have hk' : k' < rest.length := Nat.lt_of_succ_lt_succ hk
      have hpre' : ∀ j (hj : j < k'), exec (rest.get ⟨j, Nat.lt_trans hj hk'⟩) = none :=
        fun j hj => hpre (j + 1) (Nat.succ_lt_succ hj)
      have := ih k' hk' hpre' hfail
      simp [runStmts, hs, this]

/-- C8: if a statement of a statement list fails, execution stops at the
    first failure (the failing statement is the last one attempted, no
    retry), and when that list is the schema list, `setup` returns the
    error without touching the migrations, which makes `New` abort with
    that error. -/
theorem c8_statement_failure_aborts {E : Type} (l : List String)
    (exec : String → Option E) (env : String) (k : Nat) (e : E)
    (hk : k < l.length)
    (hpre : ∀ j (hj : j < k), exec (l.get ⟨j, Nat.lt_trans hj hk⟩) = none)
    (hfail : exec (l.get ⟨k, hk⟩) = some e) :
    runStmts exec l = (l.take (k + 1), some e)
    ∧ ∀ (e₂ : E) (sl : List String), runStmts exec schema = (sl, some e₂) →
        setupRun ExistsCheck.errNoRows exec env = ⟨sl, [], some e₂⟩
        ∧ newResult ExistsCheck.errNoRows exec env = Except.error e₂ := by
  refine ⟨runStmts_failAt exec e l k hk hpre hfail, ?_⟩
  intro e₂ sl hrun
  constructor
  · simp [setupRun, tableIsPresent, hrun]
  · simp [newResult, setupRun, tableIsPresent, hrun]

theorem c8_statement_failure_aborts_witness :
    runStmts
        (fun s => if s = "CREATE INDEX kine_name_index ON kine (name)"
          then some "boom" else (none : Option String)) schema
      = (schema.take 2, some "boom")
    ∧ ∀ (e₂ : String) (sl : List String),
        runStmts
            (fun s => if s = "CREATE INDEX kine_name_index ON kine (name)"
              then some "boom" else (none : Option String)) schema
          = (sl, some e₂) →
        setupRun ExistsCheck.errNoRows
            (fun s => if s = "CREATE INDEX kine_name_index ON kine (name)"
              then some "boom" else (none : Option String)) ""
          = ⟨sl, [], some e₂⟩
        ∧ newResult ExistsCheck.errNoRows
            (fun s => if s = "CREATE INDEX kine_name_index ON kine (name)"
              then some "boom" else (none : Option String)) ""
          = Except.error e₂ :=
  c8_statement_failure_aborts schema
    (fun s => if s = "CREATE INDEX kine_name_index ON kine (name)"
      then some "boom" else (none : Option String)) "" 1 "boom"
    (by decide)
    (by intro j hj; have hj0 : j = 0 := by omega
        subst hj0; exact rfl)
    (by decide)

/-- C9: when the `USER_TABLES` introspection fails with an error other
    than `sql.ErrNoRows`, `setup` does not abort: it behaves exactly as
    if the table were absent (warn only, then attempt the full schema
    list), and the only error it can return is one raised by the
    creation statements themselves. -/
theorem c9_introspection_failure_ignored {E : Type} (e : E)
    (exec exec₂ : String → Option E) (env : String) (hexec : ∀ s, exec s = none) :
    setupRun (ExistsCheck.otherErr e) exec env = setupRun ExistsCheck.errNoRows exec env
    ∧ (setupRun (ExistsCheck.otherErr e) exec env).err = none
    ∧ (setupRun (ExistsCheck.otherErr e) exec env).schemaExec = schema
    ∧ ∀ (env₂ : String),
        (setupRun (ExistsCheck.otherErr e) exec₂ env₂).err = (runStmts exec₂ schema).2 := by
  have h1 : runStmts exec schema = (schema, none) := runStmts_success exec hexec schema
  have h2 : ∀ {E' : Type} (ex : String → Option E') ver,
      runMigrations ex ver schemaMigrations 0 = ([], none) :=
    fun ex ver => runMigrations_all_empty ex ver schemaMigrations schemaMigrations_all_empty 0
  refine ⟨rfl, ?_, ?_, ?_⟩
  · simp [setupRun, tableIsPresent, h1, h2]
  · simp [setupRun, tableIsPresent, h1, h2]
  · intro env₂
    unfold setupRun
    simp only [tableIsPresent]
    rcases hrs : runStmts exec₂ schema with ⟨sl, serr⟩
    cases serr with
    | some e₃ => simp
    | none => simp [h2]

theorem c9_introspection_failure_ignored_witness :
    setupRun (ExistsCheck.otherErr "io failure") (fun _ => (none : Option String)) ""
      = setupRun ExistsCheck.errNoRows (fun _ => (none : Option String)) ""
    ∧ (setupRun (ExistsCheck.otherErr "io failure") (fun _ => (none : Option String)) "").err = none
    ∧ (setupRun (ExistsCheck.otherErr "io failure") (fun _ => (none : Option String)) "").schemaExec = schema
    ∧ ∀ (env₂ : String),
        (setupRun (ExistsCheck.otherErr "io failure") (fun _ => (none : Option String)) env₂).err
          = (runStmts (fun _ => (none : Option String)) schema).2 :=
  c9_introspection_failure_ignored "io failure" (fun _ => none) (fun _ => none) ""
    (fun _ => rfl)

/-! ### Theorems about the list query templates -/

theorem isMaxForName_iff {t : List Row} {cond : Row → Bool} {m : Row} :
    isMaxForName t cond m = true ↔
      cond m = true ∧ ∀ r ∈ t, cond r = true → r.name = m.name → r.id ≤ m.id := by
  unfold isMaxForName
  simp only [Bool.and_eq_true, List.all_eq_true, List.mem_filter, Bool.or_eq_true,
    Bool.not_eq_true', beq_eq_false_iff_ne, ne_eq, decide_eq_true_eq]
  constructor
  · rintro ⟨hc, hall⟩
    refine ⟨hc, fun r hr hcr hname => ?_⟩
    rcases hall r ⟨hr, hcr⟩ with h | h
    · exact absurd hname h
    · exact h
  · rintro ⟨hc, hall⟩
    refine ⟨hc, fun r hmem => ?_⟩
    by_cases hname : r.name = m.name
    · exact Or.inr (hall r hmem.1 hmem.2 hname)
    · exact Or.inl hname

theorem mem_groupMaxIds {t : List Row} {cond : Row → Bool} {i : Nat} :
    i ∈ groupMaxIds t cond ↔
      ∃ m, m ∈ t ∧ isMaxForName t cond m = true ∧ m.id = i := by
  unfold groupMaxIds
  simp [List.mem_map, List.mem_filter, and_assoc]

theorem mem_joinedRows_iff {t : List Row} {cond : Row → Bool} {d : Nat} {r : Row}
    (hids : (t.map Row.id).Nodup) :
    r ∈ joinedRows t cond d ↔
      r ∈ t ∧ isMaxForName t cond r = true ∧ deletedFilter d r = true := by
  unfold joinedRows
  rw [List.mem_filter]
  simp only [Bool.and_eq_true, List.contains, List.elem_iff]
  constructor
  · rintro ⟨hrt, hcont, hdel⟩
    rcases mem_groupMaxIds.mp hcont with ⟨m, hmt, hmax, hmid⟩
    have : m = r := List.inj_on_of_nodup_map hids hmt hrt hmid
    subst this
    exact ⟨hrt, hmax, hdel⟩
  · rintro ⟨hrt, hmax, hdel⟩
    exact ⟨hrt, mem_groupMaxIds.mpr ⟨r, hrt, hmax, rfl⟩, hdel⟩

theorem listQuery_rows_perm (t : List Row) (cond : Row → Bool) (d : Nat) :
    (listQuery t cond d).rows.Perm (joinedRows t cond d) :=
  List.perm_insertionSort nameLe (joinedRows t cond d)

theorem mem_listQuery_rows {t : List Row} {cond : Row → Bool} {d : Nat} {r : Row}
    (hids : (t.map Row.id).Nodup) :
    r ∈ (listQuery t cond d).rows ↔
      r ∈ t ∧ isMaxForName t cond r = true ∧ deletedFilter d r = true := by
  rw [(listQuery_rows_perm t cond d).mem_iff]
  exact mem_joinedRows_iff hids

theorem listQuery_rows_sorted (t : List Row) (cond : Row → Bool) (d : Nat) :
    List.Sorted nameLe (listQuery t cond d).rows :=
  List.sorted_insertionSort nameLe (joinedRows t cond d)

theorem listQuery_rows_nodup_names {t : List Row} {cond : Row → Bool} {d : Nat}
    (hids : (t.map Row.id).Nodup) :
    (listQuery t cond d).rows.Pairwise (fun a b => a.name ≠ b.name) := by
  have hndt : t.Nodup := List.Nodup.of_map Row.id hids
  have hjoin : (joinedRows t cond d).Nodup := hndt.filter _
  have himp : (joinedRows t cond d).Pairwise (fun a b => a.name ≠ b.name) := by
    refine List.Pairwise.imp_of_mem ?_ hjoin
    intro a b ha hb hab hname
    have hma := (mem_joinedRows_iff hids).mp ha
    have hmb := (mem_joinedRows_iff hids).mp hb
    have h1 : a.id ≤ b.id :=
      (isMaxForName_iff.mp hmb.2.1).2 a hma.1 (isMaxForName_iff.mp hma.2.1).1 hname
    have h2 : b.id ≤ a.id :=
      (isMaxForName_iff.mp hma.2.1).2 b hmb.1 (isMaxForName_iff.mp hmb.2.1).1 hname.symm
    exact hab (List.inj_on_of_nodup_map hids hma.1 hmb.1 (Nat.le_antisymm h1 h2))
  exact ((listQuery_rows_perm t cond d).pairwise_iff (fun h => Ne.symm h)).mpr himp

theorem deletedFilter_iff {d : Nat} {r : Row} :
    deletedFilter d r = true ↔ r.deleted = 0 ∨ r.deleted = d := by
  unfold deletedFilter
  simp [Bool.or_eq_true, beq_iff_eq]

/-- A non-deleted row and a later tombstone for the same name: the
    current-state list with deletion flag 0 drops the name entirely. -/
def rowC1a : Row := ⟨1, "a", 1, 0, 1, 0, 0, "v1", ""⟩

def rowC1b : Row := ⟨2, "a", 0, 1, 1, 1, 0, "", "v1"⟩

def tableC1 : List Row := [rowC1a, rowC1b]

/-- C1 (counterexample): name `a` matches the pattern and has a
    non-deleted row (of maximum id 1 among non-deleted rows), yet
    `GetCurrentSQL` with deletion flag 0 returns no row at all for it,
    because the inner `MAX(id)` group ranges over all rows (including
    the tombstone id 2) and the tombstone is then filtered out. The
    claimed "exactly one row per distinct matching name, the one with
    the maximum id among non-deleted rows" is false. -/
theorem c1_counterexample :
    likeMatch "a" rowC1a.name = true
    ∧ rowC1a ∈ tableC1
    ∧ rowC1a.deleted = 0
    ∧ (∀ r ∈ tableC1, r.deleted = 0 → r.name = "a" → r.id ≤ rowC1a.id)
    ∧ (getCurrentQuery tableC1 "a" none 0).rows = [] := by
  decide

/-- C1 (amended): `GetCurrentSQL` returns at most one row per distinct
    name, ordered by name ascending; a row is returned exactly when it
    matches the inner predicate (pattern plus cursor), has the maximum
    id among ALL rows of its name matching that predicate (deleted or
    not), and its own deleted flag is 0 or the requested state. A name
    whose maximal row is a filtered-out tombstone is omitted. -/
theorem c1_current_state_list (t : List Row) (pattern : String)
    (cursor : Option String) (d : Nat) (hids : (t.map Row.id).Nodup) :
    List.Sorted nameLe (getCurrentQuery t pattern cursor d).rows
    ∧ (getCurrentQuery t pattern cursor d).rows.Pairwise (fun a b => a.name ≠ b.name)
    ∧ ∀ r, r ∈ (getCurrentQuery t pattern cursor d).rows ↔
        r ∈ t ∧ currentCond pattern cursor r = true
        ∧ (r.deleted = 0 ∨ r.deleted = d)
        ∧ ∀ r' ∈ t, currentCond pattern cursor r' = true → r'.name = r.name →
            r'.id ≤ r.id := by
  refine ⟨listQuery_rows_sorted t (currentCond pattern cursor) d,
    listQuery_rows_nodup_names hids, fun r => ?_⟩
  rw [show getCurrentQuery t pattern cursor d
      = listQuery t (currentCond pattern cursor) d from rfl,
    mem_listQuery_rows hids, isMaxForName_iff, deletedFilter_iff]
  constructor
  · rintro ⟨h1, ⟨h2, h3⟩, h4⟩
    exact ⟨h1, h2, h4, h3⟩
  · rintro ⟨h1, h2, h3, h4⟩
    exact ⟨h1, ⟨h2, h4⟩, h3⟩

theorem c1_current_state_list_witness :
    List.Sorted nameLe (getCurrentQuery tableC1 "a" none 0).rows
    ∧ (getCurrentQuery tableC1 "a" none 0).rows.Pairwise (fun a b => a.name ≠ b.name)
    ∧ ∀ r, r ∈ (getCurrentQuery tableC1 "a" none 0).rows ↔
        r ∈ tableC1 ∧ currentCond "a" none r = true
        ∧ (r.deleted = 0 ∨ r.deleted = 0)
        ∧ ∀ r' ∈ tableC1, currentCond "a" none r' = true → r'.name = r.name →
            r'.id ≤ r.id :=
  c1_current_state_list tableC1 "a" none 0 (by decide)

/-- C7: `AfterSQL` returns exactly the rows matching the pattern with id
    strictly above the floor, in strictly ascending id order, and any
    call never returns a row at or below its floor — so a follow-up call
    whose floor is the maximum id previously returned cannot re-return
    a row. -/
theorem c7_after_cursor_poll (t : List Row) (pattern : String) (F : Nat)
    (hids : (t.map Row.id).Nodup) :
    (∀ r, r ∈ (afterQuery t pattern F).rows ↔
        r ∈ t ∧ likeMatch pattern r.name = true ∧ F < r.id)
    ∧ (afterQuery t pattern F).rows.Pairwise (fun a b => a.id < b.id)
    ∧ ∀ (t₂ : List Row) (F' : Nat) (r : Row),
        r ∈ (afterQuery t₂ pattern F').rows → F' < r.id := by
  have hmem : ∀ (t' : List Row) (F' : Nat) (r : Row),
      r ∈ (afterQuery t' pattern F').rows ↔
        r ∈ t' ∧ likeMatch pattern r.name = true ∧ F' < r.id := by
    intro t' F' r
    show r ∈ List.insertionSort idLe _ ↔ _
    rw [(List.perm_insertionSort idLe _).mem_iff, List.mem_filter]
    simp [Bool.and_eq_true, decide_eq_true_eq]
  refine ⟨fun r => hmem t F r, ?_, fun t₂ F' r h => ((hmem t₂ F' r).mp h).2.2⟩
  have hsorted : List.Sorted idLe (afterQuery t pattern F).rows :=
    List.sorted_insertionSort idLe _
  have hperm := List.perm_insertionSort idLe
    (t.filter (fun r => likeMatch pattern r.name && decide (F < r.id)))
  have hfn : ((t.filter (fun r => likeMatch pattern r.name && decide (F < r.id))).map
      Row.id).Nodup :=
    List.Nodup.sublist (List.Sublist.map Row.id (List.filter_sublist t)) hids
  have hrn : (((afterQuery t pattern F).rows).map Row.id).Nodup :=
    ((hperm.map Row.id).nodup_iff).mpr hfn
  have hpne : (afterQuery t pattern F).rows.Pairwise (fun a b => a.id ≠ b.id) :=
    List.pairwise_map.mp hrn
  exact (hsorted.and hpne).imp (fun h => Nat.lt_of_le_of_ne h.1 h.2)

def tableC7 : List Row :=
  [ ⟨1, "b", 1, 0, 1, 0, 0, "x", ""⟩
  , ⟨2, "a", 1, 0, 2, 0, 0, "y", ""⟩
  , ⟨3, "a", 0, 0, 2, 2, 0, "z", "y"⟩ ]

theorem c7_after_cursor_poll_witness :
    (∀ r, r ∈ (afterQuery tableC7 "%" 1).rows ↔
        r ∈ tableC7 ∧ likeMatch "%" r.name = true ∧ 1 < r.id)
    ∧ (afterQuery tableC7 "%" 1).rows.Pairwise (fun a b => a.id < b.id)
    ∧ ∀ (t₂ : List Row) (F' : Nat) (r : Row),
        r ∈ (afterQuery t₂ "%" F').rows → F' < r.id :=
  c7_after_cursor_poll tableC7 "%" 1 (by decide)

/-! ### C6: revision-bounded list vs. current-state list -/

/-- Any id in the grouped-maximum subquery of `ListRevisionStartSQL` is
    at most the revision ceiling. -/
theorem groupMaxIds_le {t : List Row} {pattern : String} {R : Nat} {i : Nat}
    (h : i ∈ groupMaxIds t (revisionCond pattern R)) : i ≤ R := by
  rcases mem_groupMaxIds.mp h with ⟨m, _, hmax, hmid⟩
  have hc := (isMaxForName_iff.mp hmax).1
  unfold revisionCond at hc
  rw [Bool.and_eq_true] at hc
  exact hmid ▸ of_decide_eq_true hc.2

theorem listRevisionStart_id_le {t : List Row} {pattern : String} {R d : Nat}
    {r : Row} (h : r ∈ (listRevisionStartQuery t pattern R d).rows) : r.id ≤ R := by
  have hj : r ∈ joinedRows t (revisionCond pattern R) d :=
    (listQuery_rows_perm t (revisionCond pattern R) d).mem_iff.mp h
  unfold joinedRows at hj
  have hp := (List.mem_filter.mp hj).2
  rw [Bool.and_eq_true] at hp
  have : r.id ∈ groupMaxIds t (revisionCond pattern R) := by
    have := hp.1
    simpa [List.contains, List.elem_iff] using this
  exact groupMaxIds_le this

/-- Restricting the table to `id ≤ R` and filtering with the null-cursor
    current-state predicate gives the same rows, in the same order, as
    filtering the whole table with the revision-bounded predicate —
    provided every name exceeds `CHR(1)`, the null-cursor sentinel. -/
theorem filter_revisionCond_eq {t : List Row} {pattern : String} {R : Nat}
    (hnames : ∀ r ∈ t, sqlLt "\x01" r.name = true) :
    t.filter (revisionCond pattern R)
      = (t.filter (fun r => decide (r.id ≤ R))).filter (currentCond pattern none) := by
  rw [List.filter_filter]
  refine List.filter_congr ?_
  intro r hr
  unfold revisionCond currentCond
  simp only [Option.getD_none]
  rw [hnames r hr, Bool.and_true]

theorem groupMaxIds_snapshot {t : List Row} {pattern : String} {R : Nat}
    (hnames : ∀ r ∈ t, sqlLt "\x01" r.name = true) :
    groupMaxIds t (revisionCond pattern R)
      = groupMaxIds (t.filter (fun r => decide (r.id ≤ R))) (currentCond pattern none) := by
  unfold groupMaxIds
  refine congrArg (List.map Row.id) ?_
  have hfe : t.filter (revisionCond pattern R)
      = (t.filter (fun r => decide (r.id ≤ R))).filter (currentCond pattern none) :=
    filter_revisionCond_eq hnames
  simp only [List.filter_filter]
  refine List.filter_congr ?_
  intro m hm
  have hc : revisionCond pattern R m
      = (decide (m.id ≤ R) && currentCond pattern none m) := by
    unfold revisionCond currentCond
    simp only [Option.getD_none]
    rw [hnames m hm, Bool.and_true, Bool.and_comm]
  simp only [isMaxForName, hfe, List.filter_filter]
  rw [hc]
  cases decide (m.id ≤ R) <;> cases currentCond pattern none m <;> simp

theorem joinedRows_snapshot {t : List Row} {pattern : String} {R d : Nat}
    (hnames : ∀ r ∈ t, sqlLt "\x01" r.name = true) :
    joinedRows t (revisionCond pattern R) d
      = joinedRows (t.filter (fun r => decide (r.id ≤ R))) (currentCond pattern none) d := by
  simp only [joinedRows, ← groupMaxIds_snapshot hnames, List.filter_filter]
  refine List.filter_congr ?_
  intro kv _
  cases hcont : (groupMaxIds t (revisionCond pattern R)).contains kv.id
  · simp
  · have hmem : kv.id ∈ groupMaxIds t (revisionCond pattern R) := by
      simpa [List.contains, List.elem_iff] using hcont
    have hle : decide (kv.id ≤ R) = true := decide_eq_true (groupMaxIds_le hmem)
    simp [hle]

/-- Two versions of one key: the revision-bounded list as of `R = 1`
    returns the same record row as the current-state list over the
    restricted table, but its leading `MAX(rkv.id)` scalar column is the
    live table's maximum id 2, not the snapshot's 1 — so the full
    results differ. -/
def tableC6 : List Row :=
  [ ⟨1, "a", 1, 0, 1, 0, 0, "v1", ""⟩
  , ⟨2, "a", 0, 0, 1, 1, 0, "v2", "v1"⟩ ]

/-- C6 (counterexample): the record rows agree but the complete results
    (which carry the max-revision scalar) do not. -/
theorem c6_counterexample :
    (listRevisionStartQuery tableC6 "a" 1 0).rows
      = (getCurrentQuery (tableC6.filter (fun r => decide (r.id ≤ 1))) "a" none 0).rows
    ∧ (listRevisionStartQuery tableC6 "a" 1 0).rev = some 2
    ∧ (getCurrentQuery (tableC6.filter (fun r => decide (r.id ≤ 1))) "a" none 0).rev = some 1
    ∧ listRevisionStartQuery tableC6 "a" 1 0
      ≠ getCurrentQuery (tableC6.filter (fun r => decide (r.id ≤ 1))) "a" none 0 := by
  decide

/-- C6 (amended): `ListRevisionStartSQL` never returns a record row with
    id above the ceiling `R`, and — when every stored name is greater
    than `CHR(1)`, the sentinel `GetCurrentSQL` substitutes for a null
    cursor — its record rows are exactly those `GetCurrentSQL` returns
    on the table restricted to `id ≤ R`; the two leading scalar columns
    (current max revision and compaction revision), however, are
    computed on the unrestricted live table rather than the snapshot. -/
theorem c6_revision_bounded_list (t : List Row) (pattern : String) (R d : Nat)
    (hnames : ∀ r ∈ t, sqlLt "\x01" r.name = true) :
    (∀ r ∈ (listRevisionStartQuery t pattern R d).rows, r.id ≤ R)
    ∧ (listRevisionStartQuery t pattern R d).rows
      = (getCurrentQuery (t.filter (fun r => decide (r.id ≤ R))) pattern none d).rows
    ∧ (listRevisionStartQuery t pattern R d).rev = revQuery t
    ∧ (listRevisionStartQuery t pattern R d).compactRev = compactRevQuery t := by
  refine ⟨fun r hr => listRevisionStart_id_le hr, ?_, rfl, rfl⟩
  show List.insertionSort nameLe (joinedRows t (revisionCond pattern R) d)
    = List.insertionSort nameLe
        (joinedRows (t.filter (fun r => decide (r.id ≤ R))) (currentCond pattern none) d)
  rw [joinedRows_snapshot hnames]

theorem c6_revision_bounded_list_witness :
    (∀ r ∈ (listRevisionStartQuery tableC6 "a" 1 0).rows, r.id ≤ 1)
    ∧ (listRevisionStartQuery tableC6 "a" 1 0).rows
      = (getCurrentQuery (tableC6.filter (fun r => decide (r.id ≤ 1))) "a" none 0).rows
    ∧ (listRevisionStartQuery tableC6 "a" 1 0).rev = revQuery tableC6
    ∧ (listRevisionStartQuery tableC6 "a" 1 0).compactRev = compactRevQuery tableC6 :=
  c6_revision_bounded_list tableC6 "a" 1 0 (by decide)

end KineOracle
